import Mathlib

/-!
Verification development for `aggregate_principals.py`: a single-script
pipeline that loads three tab-delimited tables (crew, principals, names),
restricts the film-indexed tables to a hard-coded allow-list `MOVIE_IDS`,
aggregates per-film actor identifiers from the principals rows whose
`category` is `"actor"`, inner-joins them with the crew table on `tconst`,
splits the comma-joined identifier columns into lists, resolves every
person identifier to a display name through the `names` table with a
memoization dictionary, and writes the result to a CSV file.

Tables are embedded as Lean lists of records; pandas row order is list
order.  Fallible steps (the `.values[0]` lookup that raises `IndexError`
in Python when an identifier is absent from the names table) are embedded
with `Option`.
-/

set_option autoImplicit false

namespace AggregatePrincipals

/-- Character-level worker for Python's `str.split(',')`: splits a character
list on every comma, keeping empty pieces, and always returns at least one
piece (the empty string splits to `[""]`). -/
def splitAux : List Char → List (List Char)
  | [] => [[]]
  | c :: cs =>
    if c = ',' then [] :: splitAux cs
    else
      match splitAux cs with
      | [] => [[c]]
      | w :: ws => (c :: w) :: ws

/-- Embedding of Python's `s.split(',')` (used by `pandas.Series.str.split(',')`
in `merge_crew`): split a string on every comma, keeping empty pieces. -/
def splitComma (s : String) : List String :=
  (splitAux s.data).map String.mk

/-- Character-level worker for Python's `','.join`: interpose a comma between
consecutive pieces. -/
def joinAux : List (List Char) → List Char
  | [] => []
  | [w] => w
  | w :: ws => w ++ ',' :: joinAux ws

/-- Embedding of Python's `','.join(xs)` (used in the `groupby ... apply`
aggregation of actor identifiers in `merge_crew`). -/
def joinComma (xs : List String) : String :=
  String.mk (joinAux (xs.map String.data))

/-- Row of the crew source table: film identifier and the comma-joined
director and writer identifier lists, as read from `title.crew.tsv.gz`. -/
structure CrewRow where
  tconst : String
  directors : String
  writers : String
  deriving DecidableEq, Repr

/-- Row of the principals source table: film identifier, person identifier
and role category, as read from `title.principals.tsv.gz`. -/
structure PrincipalRow where
  tconst : String
  nconst : String
  category : String
  deriving DecidableEq, Repr

/-- Row of the names source table: person identifier and display name, as
read from `name.basics.tsv.gz`. -/
structure NameRow where
  nconst : String
  primaryName : String
  deriving DecidableEq, Repr

/-- Row of the merged table built by `merge_crew` and mutated in place by
`map_crew`: film identifier plus the three identifier (later name) lists. -/
structure MergedRow where
  tconst : String
  directors : List String
  writers : List String
  actors : List String
  deriving DecidableEq, Repr

/-- Hard-coded allow-list of films (`MOVIE_IDS` at the top of the script). -/
def MOVIE_IDS : List String :=
  ["tt0050083", "tt0062622", "tt0066921", "tt0026778", "tt0044081",
   "tt0042192", "tt0074119", "tt0069704", "tt0075686", "tt0078788",
   "tt0052618", "tt0083658", "tt0061418", "tt0029947", "tt0064115",
   "tt0068327", "tt0034583", "tt0071315", "tt0033467", "tt0021749",
   "tt0097216", "tt0036775", "tt0057012", "tt0023969", "tt0064276",
   "tt0109830", "tt0031381", "tt0099685", "tt0044706", "tt0061811",
   "tt0025316", "tt0038650", "tt0073195", "tt0024216", "tt0056172",
   "tt0066026", "tt0064665", "tt0027977", "tt0031679", "tt0073440",
   "tt0074958", "tt0053125", "tt0047296", "tt0073486", "tt0091763",
   "tt0054215", "tt0110912", "tt0081398", "tt0082971", "tt0047396",
   "tt0075148", "tt0120815", "tt0108052", "tt0046303", "tt0045152",
   "tt0029583", "tt0053291", "tt0084707", "tt0054331", "tt0076759",
   "tt0034240", "tt0018455", "tt0043014", "tt0028333", "tt0075314",
   "tt0043265", "tt0053604", "tt0036868", "tt0050212", "tt0077416",
   "tt0067116", "tt0017925", "tt0068646", "tt0071562", "tt0015864",
   "tt0061722", "tt0032551", "tt0067328", "tt0120737", "tt0033870",
   "tt0032904", "tt0049730", "tt0111161", "tt0102926", "tt0167404",
   "tt0059742", "tt0040897", "tt0065214", "tt0032138", "tt0120338",
   "tt0056592", "tt0084805", "tt0114709", "tt0105695", "tt0052357",
   "tt0055614", "tt0061184", "tt0035575"]

/-- Allow-list filter applied to the crew table in `__init__`
(`self.crew.loc[self.crew.tconst.isin(MOVIE_IDS)]`). -/
def filterCrew (allow : List String) (crew : List CrewRow) : List CrewRow :=
  crew.filter (fun r => allow.contains r.tconst)

/-- Allow-list filter applied to the principals table in `__init__`
(`self.principals.loc[self.principals.tconst.isin(MOVIE_IDS)]`). -/
def filterPrincipals (allow : List String) (principals : List PrincipalRow) :
    List PrincipalRow :=
  principals.filter (fun r => allow.contains r.tconst)

/-- Per-film actor aggregation of `merge_crew`: the person identifiers of
the principals rows whose `category` is `"actor"` and whose `tconst` is `t`,
in source row order (`groupby("tconst")["nconst"]` group contents). -/
def actorIdsFor (principals : List PrincipalRow) (t : String) : List String :=
  ((principals.filter (fun p => p.category == "actor")).filter
      (fun p => p.tconst == t)).map (fun p => p.nconst)

/-- One crew row's contribution to the inner join of `merge_crew`: if the
film has no actor rows its `tconst` is absent from the grouped actor table
and the row is dropped; otherwise the comma-joined actor string is attached
and all three identifier columns are split on commas. -/
def mergeOne (principals : List PrincipalRow) (c : CrewRow) : Option MergedRow :=
  let g := actorIdsFor principals c.tconst
  if g.isEmpty then none
  else
    some { tconst := c.tconst
           directors := splitComma c.directors
           writers := splitComma c.writers
           actors := splitComma (joinComma g) }

/-- Table-level `merge_crew`: inner join of the crew table with the per-film
actor aggregation, preserving the left (crew) row order, followed by the
comma splits and the projection to the four columns of `MergedRow`. -/
def mergeTables (crew : List CrewRow) (principals : List PrincipalRow) :
    List MergedRow :=
  crew.filterMap (mergeOne principals)

/-- Memoization dictionary of `map_crew` (`mappings = {}` in the source),
embedded as an association list; insertion conses at the front. -/
abbrev Mappings := List (String × String)

/-- Dictionary query `nconst in mappings` / `mappings[nconst]`, embedded as
a first-match scan of the association list. -/
def cacheLookup : Mappings → String → Option String
  | [], _ => none
  | (k, v) :: rest, n => if k = n then some v else cacheLookup rest n

/-- Names-table query of `map_crew`:
`self.names.loc[self.names.nconst == nconst, "primaryName"].values[0]`.
It takes the first row of the names table whose `nconst` matches; an
identifier with no matching row makes `.values[0]` raise `IndexError`,
embedded as `none`. -/
def lookupName (names : List NameRow) (n : String) : Option String :=
  match names.filter (fun r => r.nconst == n) with
  | [] => none
  | r :: _ => some r.primaryName

/-- Resolution of one person identifier in `map_crew`: a hit in the
memoization dictionary returns the stored value; otherwise the names table
is queried and the result is stored before being returned. -/
def resolveOne (names : List NameRow) (m : Mappings) (n : String) :
    Option (String × Mappings) :=
  match cacheLookup m n with
  | some v => some (v, m)
  | none =>
    match lookupName names n with
    | some v => some (v, (n, v) :: m)
    | none => none

/-- Resolution of one field value (the inner `for nconst in field` loop of
`map_crew`): resolve each identifier in order, threading the memoization
dictionary, and collect the names. -/
def resolveList (names : List NameRow) (m : Mappings) :
    List String → Option (List String × Mappings)
  | [] => some ([], m)
  | n :: ns =>
    match resolveOne names m n with
    | none => none
    | some (v, m') =>
      match resolveList names m' ns with
      | none => none
      | some (vs, m'') => some (v :: vs, m'')

/-- Resolution of one merged row (the `for j in [1,2,3]` loop of `map_crew`):
the directors, writers and actors columns are resolved in that order and
replaced by the name lists. -/
def resolveRow (names : List NameRow) (m : Mappings) (r : MergedRow) :
    Option (MergedRow × Mappings) :=
  match resolveList names m r.directors with
  | none => none
  | some (ds, m1) =>
    match resolveList names m1 r.writers with
    | none => none
    | some (ws, m2) =>
      match resolveList names m2 r.actors with
      | none => none
      | some (as_, m3) =>
        some ({ r with directors := ds, writers := ws, actors := as_ }, m3)

/-- Resolution of the whole merged table (the outer row loop of `map_crew`),
threading the memoization dictionary across rows. -/
def resolveRows (names : List NameRow) (m : Mappings) :
    List MergedRow → Option (List MergedRow × Mappings)
  | [] => some ([], m)
  | r :: rs =>
    match resolveRow names m r with
    | none => none
    | some (r', m') =>
      match resolveRows names m' rs with
      | none => none
      | some (rs', m'') => some (r' :: rs', m'')

/-- Table-level `map_crew`: one resolution pass over the merged table,
starting from an empty memoization dictionary; `none` embeds the uncaught
`IndexError` of a failed names-table lookup. -/
def mapTables (names : List NameRow) (rows : List MergedRow) :
    Option (List MergedRow) :=
  (resolveRows names [] rows).map (fun p => p.1)

/-- Instrumented variant of `resolveOne` that additionally logs, in `q`, the
identifiers for which the names table was actually queried (cache misses);
used to state that the table is consulted at most once per identifier. -/
def resolveOneQ (names : List NameRow) (m : Mappings) (q : List String)
    (n : String) : Option (String × Mappings × List String) :=
  match cacheLookup m n with
  | some v => some (v, m, q)
  | none =>
    match lookupName names n with
    | some v => some (v, (n, v) :: m, q ++ [n])
    | none => none

/-- Instrumented variant of `resolveList`, threading the query log. -/
def resolveListQ (names : List NameRow) (m : Mappings) (q : List String) :
    List String → Option (List String × Mappings × List String)
  | [] => some ([], m, q)
  | n :: ns =>
    match resolveOneQ names m q n with
    | none => none
    | some (v, m', q') =>
      match resolveListQ names m' q' ns with
      | none => none
      | some (vs, m'', q'') => some (v :: vs, m'', q'')

/-- Instrumented variant of `resolveRow`, threading the query log. -/
def resolveRowQ (names : List NameRow) (m : Mappings) (q : List String)
    (r : MergedRow) : Option (MergedRow × Mappings × List String) :=
  match resolveListQ names m q r.directors with
  | none => none
  | some (ds, m1, q1) =>
    match resolveListQ names m1 q1 r.writers with
    | none => none
    | some (ws, m2, q2) =>
      match resolveListQ names m2 q2 r.actors with
      | none => none
      | some (as_, m3, q3) =>
        some ({ r with directors := ds, writers := ws, actors := as_ }, m3, q3)

/-- Instrumented variant of `resolveRows`, threading the query log. -/
def resolveRowsQ (names : List NameRow) (m : Mappings) (q : List String) :
    List MergedRow → Option (List MergedRow × Mappings × List String)
  | [] => some ([], m, q)
  | r :: rs =>
    match resolveRowQ names m q r with
    | none => none
    | some (r', m', q') =>
      match resolveRowsQ names m' q' rs with
      | none => none
      | some (rs', m'', q'') => some (r' :: rs', m'', q'')

/-- CSV cell table written by `write_to_csv` (`self.merged_crew.to_csv`):
one row per merged record with a leading row-index cell followed by the
four columns; list cells are kept structurally as the name lists. -/
def toCsvTable (t : List MergedRow) : List (String × List (List String)) :=
  (List.range t.length).zipWith
    (fun i r => (toString i, [[r.tconst], r.directors, r.writers, r.actors])) t

/-- File system embedding for the output side of the script: an association
of paths to written CSV cell tables, most recent write first. -/
abbrev FileSystem := List (String × List (String × List (List String)))

/-- Content visible at a path: the most recent write wins. -/
def readPath : FileSystem → String → Option (List (String × List (List String)))
  | [], _ => none
  | (p, c) :: rest, path => if p = path then some c else readPath rest path

/-- State of the `CrewReader` class: the three loaded tables and the merged
table built by `merge_crew` (unset, i.e. empty, before that call). -/
structure CrewReader where
  crew : List CrewRow
  principals : List PrincipalRow
  names : List NameRow
  merged_crew : List MergedRow
  deriving DecidableEq, Repr

/-- Embedding of `CrewReader.__init__`: store the three parsed tables,
filtering the crew and principals tables to the `MOVIE_IDS` allow-list. -/
def CrewReader.init (crewT : List CrewRow) (principalsT : List PrincipalRow)
    (namesT : List NameRow) : CrewReader :=
  { crew := filterCrew MOVIE_IDS crewT
    principals := filterPrincipals MOVIE_IDS principalsT
    names := namesT
    merged_crew := [] }

/-- Embedding of `CrewReader.merge_crew`: build `merged_crew` from the
stored crew and principals tables. -/
def CrewReader.merge_crew (st : CrewReader) : CrewReader :=
  { st with merged_crew := mergeTables st.crew st.principals }

/-- Embedding of `CrewReader.map_crew`: replace `merged_crew` by its
resolved version; `none` embeds the uncaught lookup error. -/
def CrewReader.map_crew (st : CrewReader) : Option CrewReader :=
  match mapTables st.names st.merged_crew with
  | none => none
  | some t => some { st with merged_crew := t }

/-- Embedding of `CrewReader.write_to_csv`: write the CSV cell table of
`merged_crew` at `output_file`, shadowing any previous content there. -/
def CrewReader.write_to_csv (st : CrewReader) (fs : FileSystem)
    (output_file : String) : FileSystem :=
  (output_file, toCsvTable st.merged_crew) :: fs

/-- Embedding of the `__main__` block: init, merge, map, then write
`crew_info.csv`.  A lookup failure in `map_crew` aborts the run before
`write_to_csv` executes, leaving the file system untouched (`none`). -/
def main_run (crewT : List CrewRow) (principalsT : List PrincipalRow)
    (namesT : List NameRow) (fs : FileSystem) : Option FileSystem :=
  let st := (CrewReader.init crewT principalsT namesT).merge_crew
  match st.map_crew with
  | none => none
  | some st' => some (st'.write_to_csv fs "crew_info.csv")

/-- Specification-side description of one names-table resolution: the
display name found for `n`, with a default for absent identifiers (the
default is never reached on successful runs). -/
def nameOf (names : List NameRow) (n : String) : String :=
  (lookupName names n).getD ""

/-- Specification-side description of what `map_crew` does to one row:
replace each identifier list by its pointwise `nameOf` image. -/
def resolveSpec (names : List NameRow) (r : MergedRow) : MergedRow :=
  { tconst := r.tconst
    directors := r.directors.map (nameOf names)
    writers := r.writers.map (nameOf names)
    actors := r.actors.map (nameOf names) }

/-- Invariant of the memoization dictionary: every stored value is what the
names table returns for its key. -/
def CacheOk (names : List NameRow) (m : Mappings) : Prop :=
  ∀ k v, cacheLookup m k = some v → lookupName names k = some v

/-- Invariant tying the query log to the dictionary: the log has no
duplicates and every logged identifier is now cached. -/
def QInv (m : Mappings) (q : List String) : Prop :=
  q.Nodup ∧ ∀ n ∈ q, (cacheLookup m n).isSome

/-! ### Lemmas about comma splitting and joining -/

theorem splitAux_ne_nil (l : List Char) : splitAux l ≠ [] := by
  cases l with
  | nil => simp [splitAux]
  | cons c cs =>
    simp only [splitAux]
    split
    · simp
    · cases h : splitAux cs <;> simp

theorem splitAux_comma (cs : List Char) : splitAux (',' :: cs) = [] :: splitAux cs := by
  simp [splitAux]

theorem splitAux_cons_ne (c : Char) (cs : List Char) (hc : ¬ c = ',')
    (w : List Char) (ws : List (List Char)) (h : splitAux cs = w :: ws) :
    splitAux (c :: cs) = (c :: w) :: ws := by
  simp [splitAux, hc, h]

theorem splitAux_no_comma (l : List Char) (h : ',' ∉ l) : splitAux l = [l] := by
  induction l with
  | nil => rfl
  | cons c cs ih =>
    simp only [List.mem_cons, not_or] at h
    have hc : ¬ c = ',' := fun e => h.1 e.symm
    exact splitAux_cons_ne c cs hc cs [] (ih h.2)

theorem splitAux_append (w t : List Char) (hw : ',' ∉ w) :
    splitAux (w ++ ',' :: t) = w :: splitAux t := by
  induction w with
  | nil => simpa using splitAux_comma t
  | cons c cs ih =>
    simp only [List.mem_cons, not_or] at hw
    have hc : ¬ c = ',' := fun e => hw.1 e.symm
    have h2 := ih hw.2
    simpa using splitAux_cons_ne c (cs ++ ',' :: t) hc cs (splitAux t) h2

theorem joinAux_cons_cons (c : Char) (w : List Char) (ws : List (List Char)) :
    joinAux ((c :: w) :: ws) = c :: joinAux (w :: ws) := by
  cases ws <;> rfl

theorem joinAux_splitAux (l : List Char) : joinAux (splitAux l) = l := by
  induction l with
  | nil => rfl
  | cons c cs ih =>
    by_cases hc : c = ','
    · subst hc
      rw [splitAux_comma]
      cases h : splitAux cs with
      | nil => exact absurd h (splitAux_ne_nil cs)
      | cons w ws =>
        rw [h] at ih
        calc joinAux ([] :: w :: ws) = ',' :: joinAux (w :: ws) := rfl
          _ = ',' :: cs := by rw [ih]
    · cases h : splitAux cs with
      | nil => exact absurd h (splitAux_ne_nil cs)
      | cons w ws =>
        rw [splitAux_cons_ne c cs hc w ws h, joinAux_cons_cons]
        rw [h] at ih
        rw [ih]

theorem splitAux_joinAux (ws : List (List Char)) (hne : ws ≠ [])
    (h : ∀ w ∈ ws, ',' ∉ w) : splitAux (joinAux ws) = ws := by
  induction ws with
  | nil => exact absurd rfl hne
  | cons w rest ih =>
    cases rest with
    | nil =>
      have : joinAux [w] = w := rfl
      rw [this, splitAux_no_comma w (h w (by simp))]
    | cons w2 ws2 =>
      have hj : joinAux (w :: w2 :: ws2) = w ++ ',' :: joinAux (w2 :: ws2) := rfl
      rw [hj, splitAux_append w _ (h w (by simp)),
        ih (by simp) (fun x hx => h x (List.mem_cons_of_mem w hx))]

theorem data_mk (l : List Char) : (String.mk l).data = l := rfl

theorem mk_data (s : String) : String.mk s.data = s := rfl

theorem joinComma_splitComma (s : String) : joinComma (splitComma s) = s := by
  unfold joinComma splitComma
  rw [List.map_map]
  have hcomp : (String.data ∘ String.mk) = id := rfl
  rw [hcomp, List.map_id, joinAux_splitAux]

theorem splitComma_joinComma (xs : List String) (hne : xs ≠ [])
    (h : ∀ x ∈ xs, ',' ∉ x.data) : splitComma (joinComma xs) = xs := by
  unfold splitComma joinComma
  rw [data_mk, splitAux_joinAux (xs.map String.data)
      (by simpa using hne)
      (by intro w hw
          rcases List.mem_map.mp hw with ⟨x, hx, rfl⟩
          exact h x hx),
    List.map_map]
  have hcomp : (String.mk ∘ String.data) = id := rfl
  rw [hcomp, List.map_id]

/-! ### Lemmas about the resolution pass -/

theorem cacheOk_nil (names : List NameRow) : CacheOk names [] := by
  intro k v h
  simp [cacheLookup] at h

theorem resolveOne_some (names : List NameRow) (m : Mappings) (n v : String)
    (m' : Mappings) (hok : CacheOk names m)
    (h : resolveOne names m n = some (v, m')) :
    lookupName names n = some v ∧ v = nameOf names n ∧ CacheOk names m' := by
  unfold resolveOne at h
  cases hc : cacheLookup m n with
  | some w =>
    rw [hc] at h
    simp only [Option.some.injEq, Prod.mk.injEq] at h
    obtain ⟨rfl, rfl⟩ := h
    refine ⟨hok n w hc, ?_, hok⟩
    simp [nameOf, hok n w hc]
  | none =>
    rw [hc] at h
    cases hl : lookupName names n with
    | none => rw [hl] at h; cases h
    | some w =>
      rw [hl] at h
      simp only [Option.some.injEq, Prod.mk.injEq] at h
      obtain ⟨rfl, rfl⟩ := h
      refine ⟨rfl, by simp [nameOf, hl], ?_⟩
      intro k u hk
      simp only [cacheLookup] at hk
      split at hk
      · rename_i he
        cases hk
        rw [← he]
        exact hl
      · exact hok k u hk

theorem resolveList_some (names : List NameRow) :
    ∀ (l : List String) (m : Mappings) (vs : List String) (m' : Mappings),
      CacheOk names m → resolveList names m l = some (vs, m') →
      vs = l.map (nameOf names) ∧ CacheOk names m' ∧
      ∀ n ∈ l, (lookupName names n).isSome := by
  intro l
  induction l with
  | nil =>
    intro m vs m' hok h
    cases h
    exact ⟨rfl, hok, by simp⟩
  | cons n ns ih =>
    intro m vs m' hok h
    unfold resolveList at h
    cases h1 : resolveOne names m n with
    | none => rw [h1] at h; cases h
    | some p =>
      obtain ⟨v, m1⟩ := p
      rw [h1] at h
      simp only [Option.some.injEq, Prod.mk.injEq] at h
      obtain ⟨hlk, hv, hok1⟩ := resolveOne_some names m n v m1 hok h1
      cases h2 : resolveList names m1 ns with
      | none => rw [h2] at h; cases h
      | some p2 =>
        obtain ⟨vs2, m2⟩ := p2
        rw [h2] at h
        simp only [Option.some.injEq, Prod.mk.injEq] at h
        obtain ⟨rfl, rfl⟩ := h
        obtain ⟨hvs, hok2, hall⟩ := ih m1 vs2 m2 hok1 h2
        refine ⟨by simp [hv, hvs], hok2, ?_⟩
        intro x hx
        rcases List.mem_cons.mp hx with rfl | hx'
        · simp [hlk]
        · exact hall x hx'

theorem resolveRow_some (names : List NameRow) (m : Mappings) (r r' : MergedRow)
    (m' : Mappings) (hok : CacheOk names m)
    (h : resolveRow names m r = some (r', m')) :
    r' = resolveSpec names r ∧ CacheOk names m' ∧
    ∀ n, n ∈ r.directors ∨ n ∈ r.writers ∨ n ∈ r.actors →
      (lookupName names n).isSome := by
  unfold resolveRow at h
  cases h1 : resolveList names m r.directors with
  | none => rw [h1] at h; cases h
  | some p1 =>
    obtain ⟨ds, m1⟩ := p1
    rw [h1] at h
    simp only [Option.some.injEq, Prod.mk.injEq] at h
    obtain ⟨hds, hok1, hall1⟩ := resolveList_some names r.directors m ds m1 hok h1
    cases h2 : resolveList names m1 r.writers with
    | none => rw [h2] at h; cases h
    | some p2 =>
      obtain ⟨ws, m2⟩ := p2
      rw [h2] at h
      simp only [Option.some.injEq, Prod.mk.injEq] at h
      obtain ⟨hws, hok2, hall2⟩ := resolveList_some names r.writers m1 ws m2 hok1 h2
      cases h3 : resolveList names m2 r.actors with
      | none => rw [h3] at h; cases h
      | some p3 =>
        obtain ⟨as_, m3⟩ := p3
        rw [h3] at h
        simp only [Option.some.injEq, Prod.mk.injEq] at h
        obtain ⟨has, hok3, hall3⟩ := resolveList_some names r.actors m2 as_ m3 hok2 h3
        obtain ⟨rfl, rfl⟩ := h
        refine ⟨?_, hok3, ?_⟩
        · simp [resolveSpec, hds, hws, has]
        · intro n hn
          rcases hn with hn | hn | hn
          · exact hall1 n hn
          · exact hall2 n hn
          · exact hall3 n hn

theorem resolveRows_some (names : List NameRow) :
    ∀ (rs : List MergedRow) (m : Mappings) (rs' : List MergedRow) (m' : Mappings),
      CacheOk names m → resolveRows names m rs = some (rs', m') →
      rs' = rs.map (resolveSpec names) ∧ CacheOk names m' ∧
      ∀ r ∈ rs, ∀ n, n ∈ r.directors ∨ n ∈ r.writers ∨ n ∈ r.actors →
        (lookupName names n).isSome := by
  intro rs
  induction rs with
  | nil =>
    intro m rs' m' hok h
    cases h
    exact ⟨rfl, hok, by simp⟩
  | cons r rest ih =>
    intro m rs' m' hok h
    unfold resolveRows at h
    cases h1 : resolveRow names m r with
    | none => rw [h1] at h; cases h
    | some p1 =>
      obtain ⟨r1, m1⟩ := p1
      rw [h1] at h
      simp only [Option.some.injEq, Prod.mk.injEq] at h
      obtain ⟨hr1, hok1, hall1⟩ := resolveRow_some names m r r1 m1 hok h1
      cases h2 : resolveRows names m1 rest with
      | none => rw [h2] at h; cases h
      | some p2 =>
        obtain ⟨rs2, m2⟩ := p2
        rw [h2] at h
        simp only [Option.some.injEq, Prod.mk.injEq] at h
        obtain ⟨rfl, rfl⟩ := h
        obtain ⟨hrs2, hok2, hall2⟩ := ih m1 rs2 m2 hok1 h2
        refine ⟨by simp [hr1, hrs2], hok2, ?_⟩
        intro x hx
        rcases List.mem_cons.mp hx with rfl | hx'
        · exact hall1
        · exact hall2 x hx'

theorem mapTables_some (names : List NameRow) (rows out : List MergedRow)
    (h : mapTables names rows = some out) :
    out = rows.map (resolveSpec names) ∧
    ∀ r ∈ rows, ∀ n, n ∈ r.directors ∨ n ∈ r.writers ∨ n ∈ r.actors →
      (lookupName names n).isSome := by
  unfold mapTables at h
  cases h0 : resolveRows names [] rows with
  | none => rw [h0] at h; cases h
  | some p =>
    obtain ⟨rs', m'⟩ := p
    rw [h0] at h
    simp only [Option.map_some', Option.some.injEq] at h
    obtain ⟨h1, _, h3⟩ := resolveRows_some names rows [] rs' m' (cacheOk_nil names) h0
    rw [← h]
    exact ⟨h1, h3⟩

/-! ### Lemmas about the instrumented resolution pass -/

theorem cacheLookup_cons_isSome (a b : String) (m : Mappings) (k : String)
    (h : (cacheLookup m k).isSome) : (cacheLookup ((a, b) :: m) k).isSome := by
  simp only [cacheLookup]
  split
  · simp
  · exact h

theorem resolveOneQ_some (names : List NameRow) (m : Mappings) (q : List String)
    (n v : String) (m' : Mappings) (q' : List String) (hinv : QInv m q)
    (h : resolveOneQ names m q n = some (v, m', q')) :
    QInv m' q' ∧ resolveOne names m n = some (v, m') := by
  unfold resolveOneQ at h
  unfold resolveOne
  cases hc : cacheLookup m n with
  | some w =>
    rw [hc] at h
    simp only [Option.some.injEq, Prod.mk.injEq] at h
    obtain ⟨rfl, rfl, rfl⟩ := h
    exact ⟨hinv, rfl⟩
  | none =>
    rw [hc] at h
    cases hl : lookupName names n with
    | none => rw [hl] at h; cases h
    | some w =>
      rw [hl] at h
      simp only [Option.some.injEq, Prod.mk.injEq] at h
      obtain ⟨rfl, rfl, rfl⟩ := h
      have hn : n ∉ q := by
        intro hq
        have hs := hinv.2 n hq
        rw [hc] at hs
        simp at hs
      refine ⟨⟨?_, ?_⟩, rfl⟩
      · rw [List.nodup_append]
        refine ⟨hinv.1, List.nodup_singleton n, ?_⟩
        intro a ha hb
        simp only [List.mem_singleton] at hb
        subst hb
        exact hn ha
      · intro x hx
        rcases List.mem_append.mp hx with hx | hx
        · exact cacheLookup_cons_isSome n w m x (hinv.2 x hx)
        · simp only [List.mem_singleton] at hx
          subst hx
          simp [cacheLookup]

theorem resolveListQ_some (names : List NameRow) :
    ∀ (l : List String) (m : Mappings) (q : List String) (vs : List String)
      (m' : Mappings) (q' : List String), QInv m q →
      resolveListQ names m q l = some (vs, m', q') →
      QInv m' q' ∧ resolveList names m l = some (vs, m') := by
  intro l
  induction l with
  | nil =>
    intro m q vs m' q' hinv h
    cases h
    exact ⟨hinv, rfl⟩
  | cons n ns ih =>
    intro m q vs m' q' hinv h
    unfold resolveListQ at h
    cases h1 : resolveOneQ names m q n with
    | none => rw [h1] at h; cases h
    | some p =>
      obtain ⟨v, m1, q1⟩ := p
      rw [h1] at h
      simp only [Option.some.injEq, Prod.mk.injEq] at h
      obtain ⟨hinv1, hone⟩ := resolveOneQ_some names m q n v m1 q1 hinv h1
      cases h2 : resolveListQ names m1 q1 ns with
      | none => rw [h2] at h; cases h
      | some p2 =>
        obtain ⟨vs2, m2, q2⟩ := p2
        rw [h2] at h
        simp only [Option.some.injEq, Prod.mk.injEq] at h
        obtain ⟨rfl, rfl, rfl⟩ := h
        obtain ⟨hinv2, hlist⟩ := ih m1 q1 vs2 m2 q2 hinv1 h2
        refine ⟨hinv2, ?_⟩
        simp only [resolveList, hone, hlist]

theorem resolveRowQ_some (names : List NameRow) (m : Mappings) (q : List String)
    (r : MergedRow) (r' : MergedRow) (m' : Mappings) (q' : List String)
    (hinv : QInv m q) (h : resolveRowQ names m q r = some (r', m', q')) :
    QInv m' q' ∧ resolveRow names m r = some (r', m') := by
  unfold resolveRowQ at h
  cases h1 : resolveListQ names m q r.directors with
  | none => rw [h1] at h; cases h
  | some p1 =>
    obtain ⟨ds, m1, q1⟩ := p1
    rw [h1] at h
    simp only [Option.some.injEq, Prod.mk.injEq] at h
    obtain ⟨hinv1, hl1⟩ := resolveListQ_some names r.directors m q ds m1 q1 hinv h1
    cases h2 : resolveListQ names m1 q1 r.writers with
    | none => rw [h2] at h; cases h
    | some p2 =>
      obtain ⟨ws, m2, q2⟩ := p2
      rw [h2] at h
      simp only [Option.some.injEq, Prod.mk.injEq] at h
      obtain ⟨hinv2, hl2⟩ := resolveListQ_some names r.writers m1 q1 ws m2 q2 hinv1 h2
      cases h3 : resolveListQ names m2 q2 r.actors with
      | none => rw [h3] at h; cases h
      | some p3 =>
        obtain ⟨as_, m3, q3⟩ := p3
        rw [h3] at h
        simp only [Option.some.injEq, Prod.mk.injEq] at h
        obtain ⟨rfl, rfl, rfl⟩ := h
        obtain ⟨hinv3, hl3⟩ := resolveListQ_some names r.actors m2 q2 as_ m3 q3 hinv2 h3
        refine ⟨hinv3, ?_⟩
        simp only [resolveRow, hl1, hl2, hl3]

theorem resolveRowsQ_some (names : List NameRow) :
    ∀ (rs : List MergedRow) (m : Mappings) (q : List String)
      (rs' : List MergedRow) (m' : Mappings) (q' : List String), QInv m q →
      resolveRowsQ names m q rs = some (rs', m', q') →
      QInv m' q' ∧ resolveRows names m rs = some (rs', m') := by
  intro rs
  induction rs with
  | nil =>
    intro m q rs' m' q' hinv h
    cases h
    exact ⟨hinv, rfl⟩
  | cons r rest ih =>
    intro m q rs' m' q' hinv h
    unfold resolveRowsQ at h
    cases h1 : resolveRowQ names m q r with
    | none => rw [h1] at h; cases h
    | some p1 =>
      obtain ⟨r1, m1, q1⟩ := p1
      rw [h1] at h
      simp only [Option.some.injEq, Prod.mk.injEq] at h
      obtain ⟨hinv1, hr1⟩ := resolveRowQ_some names m q r r1 m1 q1 hinv h1
      cases h2 : resolveRowsQ names m1 q1 rest with
      | none => rw [h2] at h; cases h
      | some p2 =>
        obtain ⟨rs2, m2, q2⟩ := p2
        rw [h2] at h
        simp only [Option.some.injEq, Prod.mk.injEq] at h
        obtain ⟨rfl, rfl, rfl⟩ := h
        obtain ⟨hinv2, hrest⟩ := ih m1 q1 rs2 m2 q2 hinv1 h2
        refine ⟨hinv2, ?_⟩
        simp only [resolveRows, hr1, hrest]

theorem qInv_nil : QInv [] [] :=
  ⟨List.nodup_nil, by simp⟩

/-! ### Lemmas about the merge step -/

theorem mergeOne_some (prin : List PrincipalRow) (c : CrewRow) (r : MergedRow)
    (h : mergeOne prin c = some r) :
    r.tconst = c.tconst ∧ r.directors = splitComma c.directors ∧
    r.writers = splitComma c.writers ∧
    r.actors = splitComma (joinComma (actorIdsFor prin c.tconst)) ∧
    actorIdsFor prin c.tconst ≠ [] := by
  unfold mergeOne at h
  by_cases hg : (actorIdsFor prin c.tconst).isEmpty
  · rw [if_pos hg] at h
    cases h
  · rw [if_neg hg] at h
    simp only [Option.some.injEq] at h
    subst h
    refine ⟨rfl, rfl, rfl, rfl, ?_⟩
    intro he
    rw [he] at hg
    simp at hg

theorem actorIdsFor_ne_nil (prin : List PrincipalRow) (t : String)
    (h : actorIdsFor prin t ≠ []) :
    ∃ p ∈ prin, p.category = "actor" ∧ p.tconst = t := by
  unfold actorIdsFor at h
  have hne : ((prin.filter (fun p => p.category == "actor")).filter
      (fun p => p.tconst == t)) ≠ [] := by
    intro he
    rw [he] at h
    simp at h
  obtain ⟨p, hp⟩ := List.exists_mem_of_ne_nil _ hne
  obtain ⟨hp1, hp2⟩ := List.mem_filter.mp hp
  obtain ⟨hp3, hp4⟩ := List.mem_filter.mp hp1
  exact ⟨p, hp3, by simpa using hp4, by simpa using hp2⟩

/-! ### Claim theorems -/

/-- C1: every row of the final output table has a film identifier that is a
member of the hard-coded allow-list, appears as a film identifier in the
crew source table, and appears in the principals source table on at least
one row whose role category is `"actor"`; since this holds of every output
row, no other film identifier ever appears in the output. -/
theorem output_films_in_allowlist_and_sources (crewT : List CrewRow)
    (prinT : List PrincipalRow) (namesT : List NameRow) (r : MergedRow)
    (h : r ∈ ((CrewReader.init crewT prinT namesT).merge_crew).merged_crew) :
    r.tconst ∈ MOVIE_IDS ∧ (∃ c ∈ crewT, c.tconst = r.tconst) ∧
    ∃ p ∈ prinT, p.tconst = r.tconst ∧ p.category = "actor" := by
  simp only [CrewReader.init, CrewReader.merge_crew, mergeTables] at h
  rcases List.mem_filterMap.mp h with ⟨c, hc, hone⟩
  obtain ⟨hcm, hca⟩ := List.mem_filter.mp hc
  obtain ⟨ht, -, -, -, hne⟩ := mergeOne_some _ c r hone
  obtain ⟨p, hpm, hpc, hpt⟩ := actorIdsFor_ne_nil _ c.tconst hne
  obtain ⟨hpm', -⟩ := List.mem_filter.mp hpm
  refine ⟨?_, ⟨c, hcm, ht.symm⟩, ⟨p, hpm', by rw [hpt, ht], hpc⟩⟩
  rw [ht]
  exact List.mem_of_elem_eq_true hca

/-- C1 witness: a concrete allow-listed film with one crew row and one actor
row does appear in the output, and the theorem applies to it. -/
theorem output_films_in_allowlist_and_sources_witness :
    (({ tconst := "tt0050083", directors := ["nm1"], writers := ["nm2"],
        actors := ["nm3"] } : MergedRow) ∈
      ((CrewReader.init [⟨"tt0050083", "nm1", "nm2"⟩]
        [⟨"tt0050083", "nm3", "actor"⟩] []).merge_crew).merged_crew) ∧
    ("tt0050083" ∈ MOVIE_IDS ∧
      (∃ c ∈ [(⟨"tt0050083", "nm1", "nm2"⟩ : CrewRow)], c.tconst = "tt0050083") ∧
      ∃ p ∈ [(⟨"tt0050083", "nm3", "actor"⟩ : PrincipalRow)],
        p.tconst = "tt0050083" ∧ p.category = "actor") :=
  ⟨by decide, output_films_in_allowlist_and_sources
    [⟨"tt0050083", "nm1", "nm2"⟩] [⟨"tt0050083", "nm3", "actor"⟩] []
    ⟨"tt0050083", ["nm1"], ["nm2"], ["nm3"]⟩ (by decide)⟩

/-- C2: on the concrete scenario input, with `tt0001` in the allow-list,
the pipeline (filter, merge, resolve) produces exactly the row
`("tt0001", ["A","B"], ["C"], ["D","E"])`; the principal `nm6` with role
category `"director"` contributes nothing to the actor list. -/
theorem scenario_tt0001_pipeline (allow : List String) (h : "tt0001" ∈ allow) :
    mapTables [⟨"nm1", "A"⟩, ⟨"nm2", "B"⟩, ⟨"nm3", "C"⟩, ⟨"nm4", "D"⟩, ⟨"nm5", "E"⟩]
      (mergeTables
        (filterCrew allow [⟨"tt0001", "nm1,nm2", "nm3"⟩])
        (filterPrincipals allow
          [⟨"tt0001", "nm4", "actor"⟩, ⟨"tt0001", "nm5", "actor"⟩,
           ⟨"tt0001", "nm6", "director"⟩])) =
      some [⟨"tt0001", ["A", "B"], ["C"], ["D", "E"]⟩] := by
  have hc : allow.contains "tt0001" = true := List.elem_eq_true_of_mem h
  have h1 : filterCrew allow [⟨"tt0001", "nm1,nm2", "nm3"⟩] =
      [⟨"tt0001", "nm1,nm2", "nm3"⟩] := by
    simp [filterCrew, List.filter, hc, h]
  have h2 : filterPrincipals allow
      [⟨"tt0001", "nm4", "actor"⟩, ⟨"tt0001", "nm5", "actor"⟩,
       ⟨"tt0001", "nm6", "director"⟩] =
      [⟨"tt0001", "nm4", "actor"⟩, ⟨"tt0001", "nm5", "actor"⟩,
       ⟨"tt0001", "nm6", "director"⟩] := by
    simp [filterPrincipals, List.filter, hc, h]
  rw [h1, h2]
  decide

/-- C2 witness: the scenario instantiated with the one-element allow-list
containing `tt0001`. -/
theorem scenario_tt0001_pipeline_witness :
    ("tt0001" ∈ ["tt0001"]) ∧
    mapTables [⟨"nm1", "A"⟩, ⟨"nm2", "B"⟩, ⟨"nm3", "C"⟩, ⟨"nm4", "D"⟩, ⟨"nm5", "E"⟩]
      (mergeTables
        (filterCrew ["tt0001"] [⟨"tt0001", "nm1,nm2", "nm3"⟩])
        (filterPrincipals ["tt0001"]
          [⟨"tt0001", "nm4", "actor"⟩, ⟨"tt0001", "nm5", "actor"⟩,
           ⟨"tt0001", "nm6", "director"⟩])) =
      some [⟨"tt0001", ["A", "B"], ["C"], ["D", "E"]⟩] :=
  ⟨by decide, scenario_tt0001_pipeline ["tt0001"] (by decide)⟩

/-- C6 counterexample: the round-trip claim quantified over every list of
comma-free identifier strings fails at the empty list, whose comma-join is
`""` and whose re-split is `[""]`, not `[]`. -/
theorem join_split_roundtrip_fails_on_nil :
    ¬ ∀ xs : List String, (∀ x ∈ xs, ',' ∉ x.data) →
        splitComma (joinComma xs) = xs := by
  intro h
  exact absurd (h [] (by simp)) (by decide)

/-- C6 amended: for every nonempty list of identifier strings none of which
contains a comma, joining with commas and re-splitting reproduces the list;
and for every string, splitting on commas and re-joining reproduces the
string. -/
theorem join_split_roundtrip_amended (xs : List String) (s : String)
    (hne : xs ≠ []) (hx : ∀ x ∈ xs, ',' ∉ x.data) :
    splitComma (joinComma xs) = xs ∧ joinComma (splitComma s) = s :=
  ⟨splitComma_joinComma xs hne hx, joinComma_splitComma s⟩

/-- C6 witness: the amended round-trip at a concrete identifier list and a
concrete comma-joined string. -/
theorem join_split_roundtrip_amended_witness :
    (["nm1", "nm2"] : List String) ≠ [] ∧
    splitComma (joinComma ["nm1", "nm2"]) = ["nm1", "nm2"] ∧
    joinComma (splitComma "nm3,nm4") = "nm3,nm4" :=
  ⟨by decide,
    (join_split_roundtrip_amended ["nm1", "nm2"] "nm3,nm4" (by decide)
      (by decide)).1,
    (join_split_roundtrip_amended ["nm1", "nm2"] "nm3,nm4" (by decide)
      (by decide)).2⟩

/-- C7: a crew row whose director or writer field is a comma-free string
(in particular the `\N` sentinel marker) yields, in its merged row, for
that field a one-element sequence holding that string literally, each
field independently; no special-casing or normalization to an empty
sequence happens. -/
theorem sentinel_marker_singleton (prin : List PrincipalRow) (c : CrewRow)
    (r : MergedRow) (h : mergeOne prin c = some r) :
    (',' ∉ c.directors.data → r.directors = [c.directors]) ∧
    (',' ∉ c.writers.data → r.writers = [c.writers]) := by
  obtain ⟨-, hdir, hwri, -, -⟩ := mergeOne_some prin c r h
  constructor
  · intro hd
    rw [hdir]
    unfold splitComma
    rw [splitAux_no_comma _ hd]
    rfl
  · intro hw
    rw [hwri]
    unfold splitComma
    rw [splitAux_no_comma _ hw]
    rfl

/-- C7 witness: a crew row whose director field is the `\N` sentinel while
its writer field is a comma-joined pair still produces the singleton
sequence `["\N"]` for the directors. -/
theorem sentinel_marker_singleton_witness :
    mergeOne [⟨"tt0001", "nm9", "actor"⟩] ⟨"tt0001", "\\N", "nm1,nm2"⟩ =
      some ⟨"tt0001", ["\\N"], ["nm1", "nm2"], ["nm9"]⟩ ∧
    (⟨"tt0001", ["\\N"], ["nm1", "nm2"], ["nm9"]⟩ : MergedRow).directors =
      ["\\N"] := by
  have h := sentinel_marker_singleton [⟨"tt0001", "nm9", "actor"⟩]
    ⟨"tt0001", "\\N", "nm1,nm2"⟩ ⟨"tt0001", ["\\N"], ["nm1", "nm2"], ["nm9"]⟩
    (by decide)
  exact ⟨by decide, h.1 (by decide)⟩

/-- C8: when a person identifier matches one or more rows of the names
table, the lookup returns the display name of the first matching row in
table order, and resolving the identifier on a cache miss returns and
caches exactly that name. -/
theorem lookup_first_matching_row (pre post : List NameRow) (row : NameRow)
    (n : String) (hrow : row.nconst = n) (hpre : ∀ x ∈ pre, x.nconst ≠ n) :
    lookupName (pre ++ row :: post) n = some row.primaryName ∧
    ∀ m : Mappings, cacheLookup m n = none →
      resolveOne (pre ++ row :: post) m n =
        some (row.primaryName, (n, row.primaryName) :: m) := by
  have hlk : lookupName (pre ++ row :: post) n = some row.primaryName := by
    unfold lookupName
    rw [List.filter_append]
    have h1 : pre.filter (fun r => r.nconst == n) = [] := by
      rw [List.filter_eq_nil_iff]
      intro a ha
      simp [hpre a ha]
    rw [h1]
    simp [List.filter_cons, hrow]
  refine ⟨hlk, ?_⟩
  intro m hm
  unfold resolveOne
  rw [hm, hlk]

/-- C8 witness: with a non-matching row before and a duplicate matching row
after, the lookup and a cache-miss resolution both return the first
matching row's display name. -/
theorem lookup_first_matching_row_witness :
    lookupName [⟨"nm2", "X"⟩, ⟨"nm1", "A"⟩, ⟨"nm1", "B"⟩] "nm1" = some "A" ∧
    resolveOne [⟨"nm2", "X"⟩, ⟨"nm1", "A"⟩, ⟨"nm1", "B"⟩] [] "nm1" =
      some ("A", [("nm1", "A")]) := by
  have h := lookup_first_matching_row [⟨"nm2", "X"⟩] [⟨"nm1", "B"⟩]
    ⟨"nm1", "A"⟩ "nm1" (by decide) (by decide)
  exact ⟨h.1, h.2 [] (by decide)⟩

/-- C3: the resolution pass turns the merged table into its row-wise
`resolveSpec` image; in particular each of the three name lists has exactly
the same length as the identifier list it replaces, and the `j`-th name is
the resolution of the `j`-th identifier — one name per input identifier, in
the same order, duplicates and sentinels included. -/
theorem resolution_preserves_length_and_order (names : List NameRow)
    (rows out : List MergedRow) (h : mapTables names rows = some out) :
    out = rows.map (resolveSpec names) ∧
    out.length = rows.length ∧
    ∀ i (hi : i < rows.length) (hi' : i < out.length),
      ((out.get ⟨i, hi'⟩).directors.length =
          (rows.get ⟨i, hi⟩).directors.length ∧
        (out.get ⟨i, hi'⟩).writers.length =
          (rows.get ⟨i, hi⟩).writers.length ∧
        (out.get ⟨i, hi'⟩).actors.length =
          (rows.get ⟨i, hi⟩).actors.length) ∧
      (∀ j (hj : j < (rows.get ⟨i, hi⟩).directors.length)
          (hj' : j < (out.get ⟨i, hi'⟩).directors.length),
          (out.get ⟨i, hi'⟩).directors.get ⟨j, hj'⟩ =
            nameOf names ((rows.get ⟨i, hi⟩).directors.get ⟨j, hj⟩)) ∧
      (∀ j (hj : j < (rows.get ⟨i, hi⟩).writers.length)
          (hj' : j < (out.get ⟨i, hi'⟩).writers.length),
          (out.get ⟨i, hi'⟩).writers.get ⟨j, hj'⟩ =
            nameOf names ((rows.get ⟨i, hi⟩).writers.get ⟨j, hj⟩)) ∧
      (∀ j (hj : j < (rows.get ⟨i, hi⟩).actors.length)
          (hj' : j < (out.get ⟨i, hi'⟩).actors.length),
          (out.get ⟨i, hi'⟩).actors.get ⟨j, hj'⟩ =
            nameOf names ((rows.get ⟨i, hi⟩).actors.get ⟨j, hj⟩)) := by
  obtain ⟨hout, -⟩ := mapTables_some names rows out h
  subst hout
  refine ⟨rfl, by simp, ?_⟩
  intro i hi hi'
  refine ⟨⟨?_, ?_, ?_⟩, ?_, ?_, ?_⟩ <;>
    simp [resolveSpec, List.get_eq_getElem, List.getElem_map]

/-- C3 witness: a merged row with a duplicated identifier resolves to a
name list of the same length, name by name. -/
theorem resolution_preserves_length_and_order_witness :
    mapTables [⟨"nm1", "A"⟩] [⟨"tt1", ["nm1", "nm1"], [], ["nm1"]⟩] =
      some [⟨"tt1", ["A", "A"], [], ["A"]⟩] ∧
    ([⟨"tt1", ["A", "A"], [], ["A"]⟩] : List MergedRow).length =
      ([⟨"tt1", ["nm1", "nm1"], [], ["nm1"]⟩] : List MergedRow).length := by
  have h := resolution_preserves_length_and_order [⟨"nm1", "A"⟩]
    [⟨"tt1", ["nm1", "nm1"], [], ["nm1"]⟩] [⟨"tt1", ["A", "A"], [], ["A"]⟩]
    (by decide)
  exact ⟨by decide, h.2.1⟩

/-- C4: if some merged row holds a person identifier with no matching row
in the names table, the resolution pass fails (the embedded uncaught
lookup error), and the end-to-end run aborts without producing any output
file system state — `write_to_csv` never executes. -/
theorem missing_name_aborts_before_write (crewT : List CrewRow)
    (prinT : List PrincipalRow) (namesT : List NameRow) (fs : FileSystem)
    (r : MergedRow) (n : String)
    (hr : r ∈ ((CrewReader.init crewT prinT namesT).merge_crew).merged_crew)
    (hn : n ∈ r.directors ∨ n ∈ r.writers ∨ n ∈ r.actors)
    (hmiss : lookupName namesT n = none) :
    ((CrewReader.init crewT prinT namesT).merge_crew).map_crew = none ∧
    main_run crewT prinT namesT fs = none := by
  have hmap : ((CrewReader.init crewT prinT namesT).merge_crew).map_crew = none := by
    cases hmc : ((CrewReader.init crewT prinT namesT).merge_crew).map_crew with
    | none => rfl
    | some st' =>
      unfold CrewReader.map_crew at hmc
      cases hmt : mapTables ((CrewReader.init crewT prinT namesT).merge_crew).names
          ((CrewReader.init crewT prinT namesT).merge_crew).merged_crew with
      | none => rw [hmt] at hmc; cases hmc
      | some t =>
        obtain ⟨-, hall⟩ := mapTables_some _ _ t hmt
        have hs := hall r hr n hn
        have hnames : ((CrewReader.init crewT prinT namesT).merge_crew).names =
            namesT := rfl
        rw [hnames, hmiss] at hs
        simp at hs
  refine ⟨hmap, ?_⟩
  simp only [main_run]
  rw [hmap]

/-- C4 witness: an allow-listed film whose crew identifier `nm1` has no row
in an empty names table makes the whole run abort. -/
theorem missing_name_aborts_before_write_witness :
    (({ tconst := "tt0050083", directors := ["nm1"], writers := ["nm2"],
        actors := ["nm3"] } : MergedRow) ∈
      ((CrewReader.init [⟨"tt0050083", "nm1", "nm2"⟩]
        [⟨"tt0050083", "nm3", "actor"⟩] []).merge_crew).merged_crew) ∧
    lookupName [] "nm1" = none ∧
    main_run [⟨"tt0050083", "nm1", "nm2"⟩] [⟨"tt0050083", "nm3", "actor"⟩]
      [] [] = none := by
  have h := missing_name_aborts_before_write [⟨"tt0050083", "nm1", "nm2"⟩]
    [⟨"tt0050083", "nm3", "actor"⟩] [] []
    ⟨"tt0050083", ["nm1"], ["nm2"], ["nm3"]⟩ "nm1"
    (by decide) (by decide) (by decide)
  exact ⟨by decide, by decide, h.2⟩

/-- C5: resolving an identifier already present in the memoization
dictionary returns exactly the stored value with the dictionary unchanged,
for every names table alike (no table query happens); and in a full
resolution pass the log of actual names-table queries holds no identifier
twice, the instrumented pass agreeing with the plain one. -/
theorem memoized_resolution_no_requery :
    (∀ (names : List NameRow) (m : Mappings) (n v : String),
        cacheLookup m n = some v → resolveOne names m n = some (v, m)) ∧
    (∀ (names : List NameRow) (rows out : List MergedRow) (m' : Mappings)
        (q : List String),
        resolveRowsQ names [] [] rows = some (out, m', q) →
        q.Nodup ∧ resolveRows names [] rows = some (out, m')) := by
  constructor
  · intro names m n v h
    unfold resolveOne
    rw [h]
  · intro names rows out m' q h
    obtain ⟨⟨hnd, -⟩, hproj⟩ :=
      resolveRowsQ_some names rows [] [] out m' q qInv_nil h
    exact ⟨hnd, hproj⟩

/-- C5 witness: a cache hit returns the stored value for the empty names
table, and a pass over a row with a duplicated identifier logs each
distinct identifier once. -/
theorem memoized_resolution_no_requery_witness :
    (cacheLookup [("nm1", "A")] "nm1" = some "A" ∧
      resolveOne [] [("nm1", "A")] "nm1" = some ("A", [("nm1", "A")])) ∧
    (resolveRowsQ [⟨"nm1", "A"⟩] [] [] [⟨"tt1", ["nm1", "nm1"], [], []⟩] =
        some ([⟨"tt1", ["A", "A"], [], []⟩], [("nm1", "A")], ["nm1"]) ∧
      (["nm1"] : List String).Nodup ∧
      resolveRows [⟨"nm1", "A"⟩] [] [⟨"tt1", ["nm1", "nm1"], [], []⟩] =
        some ([⟨"tt1", ["A", "A"], [], []⟩], [("nm1", "A")])) := by
  constructor
  · exact ⟨by decide,
      memoized_resolution_no_requery.1 [] [("nm1", "A")] "nm1" "A" (by decide)⟩
  · refine ⟨by decide, ?_, ?_⟩
    · exact (memoized_resolution_no_requery.2 [⟨"nm1", "A"⟩]
        [⟨"tt1", ["nm1", "nm1"], [], []⟩] [⟨"tt1", ["A", "A"], [], []⟩]
        [("nm1", "A")] ["nm1"] (by decide)).1
    · exact (memoized_resolution_no_requery.2 [⟨"nm1", "A"⟩]
        [⟨"tt1", ["nm1", "nm1"], [], []⟩] [⟨"tt1", ["A", "A"], [], []⟩]
        [("nm1", "A")] ["nm1"] (by decide)).2

/-- C9: writing serializes the final table with one CSV row per film, a
leading row-index cell equal to the row's in-memory position, then the four
columns (film identifier, director names, writer names, actor names); the
write shadows whatever the destination path held before, unconditionally. -/
theorem write_to_csv_shape_and_overwrite (st : CrewReader) (fs : FileSystem)
    (path : String) (i : Nat) (hi : i < st.merged_crew.length)
    (hi' : i < (toCsvTable st.merged_crew).length) :
    readPath (st.write_to_csv fs path) path = some (toCsvTable st.merged_crew) ∧
    (toCsvTable st.merged_crew).length = st.merged_crew.length ∧
    (toCsvTable st.merged_crew).get ⟨i, hi'⟩ =
      (toString i,
        [[(st.merged_crew.get ⟨i, hi⟩).tconst],
         (st.merged_crew.get ⟨i, hi⟩).directors,
         (st.merged_crew.get ⟨i, hi⟩).writers,
         (st.merged_crew.get ⟨i, hi⟩).actors]) := by
  refine ⟨?_, ?_, ?_⟩
  · simp [CrewReader.write_to_csv, readPath]
  · simp [toCsvTable]
  · simp [toCsvTable, List.get_eq_getElem, List.getElem_zipWith]

/-- C9 witness: a one-row table written over a path that already holds
other content replaces it, and the single CSV row carries index `0` and
the four columns. -/
theorem write_to_csv_shape_and_overwrite_witness :
    readPath
      (CrewReader.write_to_csv
        ⟨[], [], [], [⟨"tt1", ["A"], ["B"], ["C"]⟩]⟩
        [("crew_info.csv", [("9", [["old"]])])] "crew_info.csv")
      "crew_info.csv" =
      some [("0", [["tt1"], ["A"], ["B"], ["C"]])] ∧
    toCsvTable [⟨"tt1", ["A"], ["B"], ["C"]⟩] =
      [("0", [["tt1"], ["A"], ["B"], ["C"]])] := by
  have h := write_to_csv_shape_and_overwrite
    ⟨[], [], [], [⟨"tt1", ["A"], ["B"], ["C"]⟩]⟩
    [("crew_info.csv", [("9", [["old"]])])] "crew_info.csv" 0
    (by decide) (by decide)
  exact ⟨by rw [h.1]; decide, by decide⟩

/-- C10: a successful resolution pass changes only the three list columns
of the merged table — the loaded crew, principals and names tables are
untouched, the merged table keeps its row count, and each row keeps its
film identifier in its position. -/
theorem map_crew_frame (st st' : CrewReader) (h : st.map_crew = some st') :
    st'.crew = st.crew ∧ st'.principals = st.principals ∧
    st'.names = st.names ∧
    st'.merged_crew.length = st.merged_crew.length ∧
    ∀ i (hi : i < st'.merged_crew.length) (hi' : i < st.merged_crew.length),
      (st'.merged_crew.get ⟨i, hi⟩).tconst =
        (st.merged_crew.get ⟨i, hi'⟩).tconst := by
  unfold CrewReader.map_crew at h
  cases hmt : mapTables st.names st.merged_crew with
  | none => rw [hmt] at h; cases h
  | some t =>
    rw [hmt] at h
    simp only [Option.some.injEq] at h
    subst h
    obtain ⟨hout, -⟩ := mapTables_some st.names st.merged_crew t hmt
    refine ⟨rfl, rfl, rfl, by simp [hout], ?_⟩
    intro i hi hi'
    simp [hout, resolveSpec, List.get_eq_getElem, List.getElem_map]

/-- C10 witness: a concrete state whose resolution succeeds keeps its
tables, row count and film identifier column. -/
theorem map_crew_frame_witness :
    CrewReader.map_crew
        ⟨[⟨"tt1", "nm1", "nm2"⟩], [], [⟨"nm1", "A"⟩],
          [⟨"tt1", ["nm1"], [], []⟩]⟩ =
      some ⟨[⟨"tt1", "nm1", "nm2"⟩], [], [⟨"nm1", "A"⟩],
        [⟨"tt1", ["A"], [], []⟩]⟩ ∧
    ([⟨"tt1", ["A"], [], []⟩] : List MergedRow).length =
      ([⟨"tt1", ["nm1"], [], []⟩] : List MergedRow).length := by
  have h := map_crew_frame
    ⟨[⟨"tt1", "nm1", "nm2"⟩], [], [⟨"nm1", "A"⟩], [⟨"tt1", ["nm1"], [], []⟩]⟩
    ⟨[⟨"tt1", "nm1", "nm2"⟩], [], [⟨"nm1", "A"⟩], [⟨"tt1", ["A"], [], []⟩]⟩
    (by decide)
  exact ⟨by decide, h.2.2.2.1⟩

end AggregatePrincipals
